import Mathlib

/-
Shallow embedding of `kube-endpoint-discovery.go` (package main).

Conventions of the embedding:
* Go strings are Lean `String`s; Go slices are Lean `List`s.
* Fallible code (a regex submatch indexed without a bounds check, which
  panics in Go) is modelled with `Option`: `none` is the crash.
* `fmt.Printf` output is modelled as the `String` that is written to the
  process's standard output.
* The poll loop of `main` (lines 129-139) is modelled in idealized time:
  each iteration costs exactly the 10-second sleep of the loop's post
  statement, so the tick with index `k` starts at `10 * k` elapsed seconds
  and the Go condition `time.Since(t) < 5*time.Minute` reads
  `10 * k < 300`.  Fetch outcomes are an oracle `Nat → Option _` giving
  the result of the `k`-th `Endpoints(...).Get` call (`none` is the
  error branch at line 131).
-/

/-- One entry of `core.EndpointAddress`: the Go code reads only the
`Hostname` field (line 39); the `ip` field stands for the fields it
ignores. -/
structure EndpointAddress where
  hostname : String
  ip : String
deriving Repr, DecidableEq

/-- One entry of `core.EndpointSubset`: the Go code reads only the
`Addresses` field (line 38). -/
structure EndpointSubset where
  addresses : List EndpointAddress
deriving Repr, DecidableEq

/-- `getHostnames` (lines 35-43): appends `dns.Hostname` for every address
of every subset to a single accumulator, in subset order then address
order. -/
def getHostnames (subsets : List EndpointSubset) : List String :=
  subsets.foldl (fun acc ss => ss.addresses.foldl (fun acc2 dns => acc2 ++ [dns.hostname]) acc) []

/-- `getFqdn` (lines 46-52): for each hostname appends
`hostname + "." + serviceName + "." + namespaceName + "." + domainName`
(note the source's parameter order is namespace before service, while the
concatenation puts the service name first). -/
def getFqdn (hostnames : List String) (namespaceName serviceName domainName : String) : List String :=
  hostnames.foldl (fun acc hostname => acc ++ [hostname ++ "." ++ serviceName ++ "." ++ namespaceName ++ "." ++ domainName]) []

/-- Go's RE2 word character `\w = [0-9A-Za-z_]` (ASCII, no Unicode flags
in the pattern at line 56). -/
def goWordChar (c : Char) : Bool :=
  c.isAlpha || c.isDigit || c == '_'

/-- Models `regexp.MustCompile((^\w*)-(\d)).FindStringSubmatch node`
(lines 56-57), returning the second capture group when a match exists.
Because the `^` inside the first group anchors any match to the start of
the string, and every character consumed by the greedy `\w*` is a word
character while `-` is not, the only candidate split is: the maximal
word-character prefix, then a literal `-`, then one ASCII digit `\d`.
So a match exists iff the character right after the maximal
word-character prefix is `-` and the one after it is a digit. -/
def reDigitCapture (s : List Char) : Option Char :=
  match s.drop ((s.takeWhile goWordChar).length) with
  | '-' :: d :: _ => if d.isDigit then some d else none
  | _ => none

/-- `getNodeIndex` (lines 55-60): capture the digit after the dash,
`strconv.Atoi` it, increment, `strconv.Itoa` the result.  In Go the
submatch slice is indexed without a nil check, so a non-matching hostname
panics with an index-out-of-range: that crash is `none` here. -/
def getNodeIndex (node : String) : Option String :=
  (reDigitCapture node.data).map (fun d => toString (d.toNat - '0'.toNat + 1))

/-- The predicate the spec states getNodeIndex's precondition with: the
string starts with `<word>-<digit>`, i.e. some (possibly empty) run of
word characters, then `-`, then an ASCII digit. -/
def startsWithWordDashDigit : List Char → Bool
  | [] => false
  | [_] => false
  | c :: d :: rest =>
    if c = '-' then d.isDigit
    else goWordChar c && startsWithWordDashDigit (d :: rest)

/-- The `"zookeeper"` branch of `formatOutput` (lines 65-68): one line
per FQDN, `none` as soon as `getNodeIndex` panics on one of them. -/
def zkLines : List String → Option (List String)
  | [] => some []
  | host :: rest =>
    match getNodeIndex host, zkLines rest with
    | some i, some ls => some (("server" ++ i ++ ":" ++ host ++ ":2888:3888\n") :: ls)
    | _, _ => none

/-- The flag characters of Go's `fmt` verb syntax: the `simpleFormat`
loop of `doPrintf` consumes them before anything else. -/
def isFlagChar (c : Char) : Bool :=
  c == '#' || c == '0' || c == '+' || c == '-' || c == ' '

/-- Go's `fmt.parsenum`: consume a run of ASCII digits, reporting the
value and whether at least one digit was seen; an accumulated value
above `tooLarge`'s bound 1e6 aborts, consuming everything up to the
scan's end (modelled by returning the empty remainder). -/
def goParsenum : Nat → Bool → List Char → Nat × Bool × List Char
  | num, isnum, [] => (num, isnum, [])
  | num, isnum, c :: rest =>
    if c.isDigit then
      if 1000000 < num then (0, false, [])
      else goParsenum (num * 10 + (c.toNat - '0'.toNat)) true rest
    else (num, isnum, c :: rest)

/-- Go's `fmt.parseArgNumber` on a tail that begins with `[`: fewer than
3 characters fail consuming only the `[`; otherwise scan to the first
`]` and require the characters between to be one nonempty, non-overflowing
digit run.  Returns the number of characters consumed and whether the
index parsed (its value is irrelevant here: with zero operands every
explicit index is out of range). -/
def goParseArgNumber (s : List Char) : Nat × Bool :=
  if s.length < 3 then (1, false)
  else
    let j := (s.drop 1).findIdx (fun c => c == ']')
    if j < (s.drop 1).length then
      match goParsenum 0 false ((s.drop 1).take j) with
      | (_, isnum, rest) => (j + 2, isnum && rest.isEmpty)
    else (1, false)

/-- Go's `pp.argNumber` with zero operands: no leading `[` leaves
everything unchanged; an explicit index can never be in range, so
`goodArgNum` becomes false, and `afterIndex` is whether the index at
least parsed. -/
def goArgNumber (good : Bool) (s : List Char) : Bool × Bool × List Char :=
  if s.head? = some '[' then
    match goParseArgNumber s with
    | (wid, ok) => (false, ok, s.drop wid)
  else (good, false, s)

/-- The width step of `doPrintf` with zero operands: `*` consumes no
argument, so `%!(BADWIDTH)` is written and `afterIndex` cleared;
otherwise a digit run is parsed and a width right after an index marks
the argument number bad. -/
def goWidth (good after : Bool) (s : List Char) : List Char × Bool × Bool × List Char :=
  if s.head? = some '*' then
    ("%!(BADWIDTH)".data, good, false, s.drop 1)
  else
    match goParsenum 0 false s with
    | (_, widPresent, t) => ([], if after && widPresent then false else good, after, t)

/-- The precision step of `doPrintf` with zero operands: entered only
when at least one character follows the dot (`i+1 < end`); a precision
after an index is bad, another argument index may follow the dot, `*`
writes `%!(BADPREC)`, and otherwise a digit run is parsed. -/
def goPrec (good after : Bool) (s : List Char) : List Char × Bool × Bool × List Char :=
  if 1 < s.length ∧ s.head? = some '.' then
    match goArgNumber (if after then false else good) (s.drop 1) with
    | (good2, after2, u) =>
      if u.head? = some '*' then ("%!(BADPREC)".data, good2, false, u.drop 1)
      else
        match goParsenum 0 false u with
        | (_, _, v) => ([], good2, after2, v)
  else ([], good, after, s)

/-- The second `pp.argNumber` call of `doPrintf`, made only when no
index was parsed yet. -/
def goMaybeIndex (good after : Bool) (s : List Char) : Bool × Bool × List Char :=
  if after then (good, after, s) else goArgNumber good s

/-- The verb dispatch of `doPrintf` with zero operands: an exhausted
format writes `%!(NOVERB)`, the verb `%` writes a literal percent, a bad
argument number writes `%!v(BADINDEX)`, and any other verb has no
operand left and writes `%!v(MISSING)`. -/
def goFinalVerb (good : Bool) (s : List Char) : List Char × List Char :=
  match s with
  | [] => ("%!(NOVERB)".data, [])
  | v :: t =>
    if v = '%' then (['%'], t)
    else if good then ("%!".data ++ v :: "(MISSING)".data, t)
    else ("%!".data ++ v :: "(BADINDEX)".data, t)

/-- One verb of `doPrintf` after its `%`, with zero operands: flags,
argument index, width, precision, a second index chance, then the verb.
The fast path inside the flag loop needs an operand, so it never fires
here.  Returns the text written and the rest of the format. -/
def goVerb (s : List Char) : List Char × List Char :=
  match goArgNumber true (s.dropWhile isFlagChar) with
  | (good1, after1, s2) =>
    match goWidth good1 after1 s2 with
    | (out1, good2, after2, s3) =>
      match goPrec good2 after2 s3 with
      | (out2, good3, after3, s4) =>
        match goMaybeIndex good3 after3 s4 with
        | (good4, _, s5) =>
          match goFinalVerb good4 s5 with
          | (out3, rest) => (out1 ++ out2 ++ out3, rest)

/-- The main loop of `fmt.doPrintf` with zero operands: copy literal
text up to the next `%`, process one verb, repeat.  `fuel` is only a
structural-recursion bound; every iteration consumes at least the `%`
character, so the entry fuel `length + 1` is never the reason the loop
stops (`goPrintfLoop_fuel_irrel` below). -/
def goPrintfLoop : Nat → List Char → List Char
  | 0, _ => []
  | fuel + 1, s =>
    match s.drop ((s.takeWhile (fun c => c != '%')).length) with
    | [] => s.takeWhile (fun c => c != '%')
    | _ :: afterPct =>
      match goVerb afterPct with
      | (out, rest) => s.takeWhile (fun c => c != '%') ++ out ++ goPrintfLoop fuel rest

/-- `fmt.Printf(format)` with no operands: the format string is scanned
for verbs even though the caller supplied only data.  This is what the
default branch of `formatOutput` (line 72) does to the joined FQDNs. -/
def goPrintfNoArgs (s : String) : String :=
  String.mk (goPrintfLoop (s.data.length + 1) s.data)

/-- `formatOutput` (lines 63-74): the text written to standard output,
`none` when the zookeeper branch panics inside `getNodeIndex`.  The
zookeeper and elasticsearch branches pass the member data as `Printf`
operands of constant format strings, so the data is written verbatim;
the default branch passes `strings.Join(result, ", ")` itself as the
`Printf` format string, so `%` sequences inside the FQDNs are
interpreted as verbs (`goPrintfNoArgs`). -/
def formatOutput (result : List String) (format : String) : Option String :=
  if format = "zookeeper" then
    (zkLines result).map String.join
  else if format = "elasticsearch" then
    some ("discovery.zen.ping.unicast.hosts: [" ++ String.intercalate ", " result ++ "]\n")
  else
    some (goPrintfNoArgs (String.intercalate ", " result))

/-- `strconv.Atoi` with the error ignored, as at line 128: empty string,
missing digits or any non-digit character are syntax errors and yield 0;
values out of the 64-bit int range are clamped to the range limits
(`ParseInt`'s range-error return values). -/
def goAtoi (s : String) : Int :=
  match s.data with
  | [] => 0
  | c :: cs =>
    let digits := if c = '-' ∨ c = '+' then cs else c :: cs
    if digits = [] then 0
    else if digits.all Char.isDigit then
      let n : Nat := digits.foldl (fun acc d => acc * 10 + (d.toNat - '0'.toNat)) 0
      if c = '-' then
        if (n : Int) ≤ 2 ^ 63 then -(n : Int) else -(2 ^ 63)
      else
        if (n : Int) ≤ 2 ^ 63 - 1 then (n : Int) else 2 ^ 63 - 1
    else 0

/-- The break condition of the poll loop (line 136):
`len(hosts) > 0 && len(hosts) == count`. -/
def breakCond (hosts : List String) (count : Int) : Bool :=
  decide (0 < hosts.length) && decide ((hosts.length : Int) = count)

/-- The poll loop of `main` (lines 129-139), from tick `k` with current
hosts list `hosts`.  Each iteration: check the deadline
(`10 * k < 300` seconds, see the header comment), fetch (`f k`),
on error `continue` (line 132) keeping `hosts`, on success replace the
whole list with the recomputed FQDNs (line 134) and break when
`breakCond` holds (lines 136-138).  Returns the final hosts list and the
number of fetches performed.  `fuel` is only a structural-recursion
bound: `pollFrom_fuel_irrel` below shows the result does not depend on it
once `30 ≤ k + fuel`, i.e. the deadline check is what stops the loop. -/
def pollFrom (f : Nat → Option (List EndpointSubset)) (count : Int) (ns svc dom : String) : Nat → Nat → List String → List String × Nat
  | 0, _, hosts => (hosts, 0)
  | fuel + 1, k, hosts =>
    if 10 * k < 300 then
      match f k with
      | none =>
        ((pollFrom f count ns svc dom fuel (k + 1) hosts).1,
         (pollFrom f count ns svc dom fuel (k + 1) hosts).2 + 1)
      | some subsets =>
        if breakCond (getFqdn (getHostnames subsets) ns svc dom) count then
          (getFqdn (getHostnames subsets) ns svc dom, 1)
        else
          ((pollFrom f count ns svc dom fuel (k + 1) (getFqdn (getHostnames subsets) ns svc dom)).1,
           (pollFrom f count ns svc dom fuel (k + 1) (getFqdn (getHostnames subsets) ns svc dom)).2 + 1)
    else (hosts, 0)

/-- The whole poll loop as entered by `main`: tick 0, empty initial hosts
list (line 101); fuel 30 suffices because the deadline admits ticks
0..29 only. -/
def poll (f : Nat → Option (List EndpointSubset)) (count : Int) (ns svc dom : String) : List String × Nat :=
  pollFrom f count ns svc dom 30 0 []

/-- The tail of `main` (lines 128-141): parse `MINIMUM_MASTER_NODES`,
run the poll loop, hand the surviving list to `formatOutput` with the
service name itself as the format selector (line 141). -/
def mainCore (f : Nat → Option (List EndpointSubset)) (minMasterNodes ns svc dom : String) : Option String :=
  formatOutput (poll f (goAtoi minMasterNodes) ns svc dom).1 svc

/-! ## Helper lemmas about the regex model -/

/-- A word character consumed by the greedy `\w*` just shifts the
submatch search by one. -/
theorem reDigitCapture_cons_word {c : Char} (xs : List Char) (hc : goWordChar c = true) :
    reDigitCapture (c :: xs) = reDigitCapture xs := by
  simp [reDigitCapture, List.takeWhile_cons, hc]

/-- A head character that is neither a word character nor `-` kills the
anchored match outright. -/
theorem reDigitCapture_head_block {c : Char} (xs : List Char) (hc : goWordChar c = false)
    (hd : c ≠ '-') : reDigitCapture (c :: xs) = none := by
  have ht : (c :: xs).takeWhile goWordChar = [] := by
    simp [List.takeWhile_cons, hc]
  unfold reDigitCapture
  rw [ht]
  simp only [List.length_nil, List.drop_zero]
  split
  · rename_i d rest heq
    injection heq with h1 h2
    exact absurd h1 hd
  · rfl

/-- If a string does not start with `<word>-<digit>` then the regex of
`getNodeIndex` has no match. -/
theorem reDigitCapture_none_of_not_start : ∀ (s : List Char),
    startsWithWordDashDigit s = false → reDigitCapture s = none := by
  intro s
  induction s with
  | nil => intro _; rfl
  | cons c s' IH =>
    intro hsw
    by_cases hw : goWordChar c = true
    · have hcd : c ≠ '-' := by
        intro hceq
        rw [hceq] at hw
        exact absurd hw (by decide)
      rw [reDigitCapture_cons_word s' hw]
      apply IH
      cases s' with
      | nil => rfl
      | cons d rest =>
        simpa [startsWithWordDashDigit, if_neg hcd, hw] using hsw
    · by_cases hdash : c = '-'
      · subst hdash
        cases s' with
        | nil => rfl
        | cons d rest =>
          have hd : d.isDigit = false := by
            simpa [startsWithWordDashDigit] using hsw
          show (if d.isDigit then some d else none) = none
          rw [hd]
          rfl
      · exact reDigitCapture_head_block s' (by simpa using hw) hdash

/-- The greedy `\w*` consumes exactly an all-word-character prefix that
is followed by `-`, so the second capture group is the character after
the dash whenever it is a digit. -/
theorem reDigitCapture_word_run : ∀ (w : List Char) (c : Char) (rest : List Char),
    (∀ x ∈ w, goWordChar x = true) →
    reDigitCapture (w ++ '-' :: c :: rest) = if c.isDigit then some c else none := by
  intro w
  induction w with
  | nil => intro c rest _; rfl
  | cons a w' IH =>
    intro c rest hw
    rw [List.cons_append, reDigitCapture_cons_word _ (hw a (List.mem_cons_self a w'))]
    exact IH c rest (fun x hx => hw x (List.mem_cons_of_mem a hx))

/-- A hostname that does not start with `<word>-<digit>` still fails the
regex after the FQDN suffix `.<...>` is appended, because `.` is neither
a word character nor `-` nor a digit. -/
theorem reDigitCapture_append_dot : ∀ (h t : List Char),
    startsWithWordDashDigit h = false → reDigitCapture (h ++ '.' :: t) = none := by
  intro h
  induction h with
  | nil =>
    intro t _
    exact reDigitCapture_head_block t (by decide) (by decide)
  | cons c h' IH =>
    intro t hsw
    by_cases hw : goWordChar c = true
    · have hcd : c ≠ '-' := by
        intro hceq
        rw [hceq] at hw
        exact absurd hw (by decide)
      rw [List.cons_append, reDigitCapture_cons_word _ hw]
      apply IH
      cases h' with
      | nil => rfl
      | cons d rest =>
        simpa [startsWithWordDashDigit, if_neg hcd, hw] using hsw
    · by_cases hdash : c = '-'
      · subst hdash
        cases h' with
        | nil =>
          show (if Char.isDigit '.' then some '.' else none) = none
          rfl
        | cons d rest =>
          have hd : d.isDigit = false := by
            simpa [startsWithWordDashDigit] using hsw
          show (if d.isDigit then some d else none) = none
          rw [hd]
          rfl
      · exact reDigitCapture_head_block _ (by simpa using hw) hdash

/-! ## Helper lemmas about lists, strings and the formatter -/

/-- The Go append-in-a-loop idiom is a `map`. -/
theorem foldl_push_eq_append_map {α β : Type} (g : α → β) : ∀ (l : List α) (acc : List β),
    l.foldl (fun a h => a ++ [g h]) acc = acc ++ l.map g := by
  intro l
  induction l with
  | nil => intro acc; simp
  | cons x l' IH => intro acc; simp [IH]

/-- `getFqdn` is elementwise concatenation of the four components, in
source order: hostname, service, namespace, domain. -/
theorem getFqdn_eq_map (H : List String) (ns svc dom : String) :
    getFqdn H ns svc dom = H.map (fun h => h ++ "." ++ svc ++ "." ++ ns ++ "." ++ dom) := by
  simpa [getFqdn] using
    foldl_push_eq_append_map (fun h => h ++ "." ++ svc ++ "." ++ ns ++ "." ++ dom) H []

/-- String append concatenates the underlying character lists. -/
theorem string_data_append (a b : String) : (a ++ b).data = a.data ++ b.data := by
  cases a
  cases b
  rfl

/-- One panicking `getNodeIndex` makes the whole zookeeper rendering
panic. -/
theorem zkLines_none_of_mem : ∀ (l : List String) (x : String),
    x ∈ l → getNodeIndex x = none → zkLines l = none := by
  intro l
  induction l with
  | nil =>
    intro x hx
    exact absurd hx (List.not_mem_nil x)
  | cons a l' IH =>
    intro x hx hnone
    rcases List.mem_cons.mp hx with rfl | hx'
    · simp [zkLines, hnone]
    · cases hgi : getNodeIndex a <;> simp [zkLines, hgi, IH x hx' hnone]

/-! ## Helper lemmas about the Printf model -/

/-- A format string without `%` is copied to the output verbatim. -/
theorem goPrintfLoop_no_pct (fuel : Nat) (s : List Char) (h : ∀ c ∈ s, c ≠ '%') :
    goPrintfLoop (fuel + 1) s = s := by
  have ht : s.takeWhile (fun c => c != '%') = s :=
    List.takeWhile_eq_self_iff.mpr (fun c hc => by simpa [bne_iff_ne] using h c hc)
  simp only [goPrintfLoop, ht, List.drop_length]

/-- `fmt.Printf` with no operands prints a `%`-free format verbatim. -/
theorem goPrintfNoArgs_no_pct (s : String) (h : ∀ c ∈ s.data, c ≠ '%') :
    goPrintfNoArgs s = s := by
  unfold goPrintfNoArgs
  rw [goPrintfLoop_no_pct s.data.length s.data h]

/-- Dropping a prefix never lengthens a list. -/
theorem dropWhile_length_le {α : Type} (p : α → Bool) : ∀ (l : List α),
    (l.dropWhile p).length ≤ l.length := by
  intro l
  induction l with
  | nil => simp [List.dropWhile]
  | cons a t IH =>
    rw [List.dropWhile_cons]
    by_cases hp : p a = true
    · rw [if_pos hp]
      exact le_trans IH (by simp)
    · rw [if_neg hp]

/-- `goParsenum` only consumes characters. -/
theorem goParsenum_rest_le : ∀ (s : List Char) (num : Nat) (isnum : Bool),
    (goParsenum num isnum s).2.2.length ≤ s.length := by
  intro s
  induction s with
  | nil => intro num isnum; simp [goParsenum]
  | cons c t IH =>
    intro num isnum
    by_cases hd : c.isDigit = true
    · by_cases hn : 1000000 < num
      · simp [goParsenum, hd, hn]
      · have hstep : goParsenum num isnum (c :: t)
            = goParsenum (num * 10 + (c.toNat - '0'.toNat)) true t := by
          simp [goParsenum, hd, hn]
        rw [hstep]
        exact le_trans (IH _ _) (Nat.le_succ _)
    · simp [goParsenum, hd]

/-- `goArgNumber` only consumes characters. -/
theorem goArgNumber_rest_le (good : Bool) (s : List Char) :
    (goArgNumber good s).2.2.length ≤ s.length := by
  unfold goArgNumber
  by_cases h : s.head? = some '['
  · rw [if_pos h]
    rcases hp : goParseArgNumber s with ⟨wid, ok⟩
    simp [hp]
  · rw [if_neg h]

/-- The width step only consumes characters. -/
theorem goWidth_rest_le (good after : Bool) (s : List Char) :
    (goWidth good after s).2.2.2.length ≤ s.length := by
  unfold goWidth
  by_cases h : s.head? = some '*'
  · rw [if_pos h]
    simp
  · rw [if_neg h]
    rcases hp : goParsenum 0 false s with ⟨num, b, t⟩
    have hle := goParsenum_rest_le s 0 false
    rw [hp] at hle
    simpa [hp] using hle

/-- The precision step only consumes characters. -/
theorem goPrec_rest_le (good after : Bool) (s : List Char) :
    (goPrec good after s).2.2.2.length ≤ s.length := by
  unfold goPrec
  by_cases h : 1 < s.length ∧ s.head? = some '.'
  · rw [if_pos h]
    rcases ha : goArgNumber (if after then false else good) (s.drop 1) with ⟨g2, a2, u⟩
    have hu : u.length ≤ (s.drop 1).length := by
      have hh := goArgNumber_rest_le (if after then false else good) (s.drop 1)
      rw [ha] at hh
      exact hh
    have hd1 : (s.drop 1).length ≤ s.length := by simp
    simp only [ha]
    by_cases hstar : u.head? = some '*'
    · rw [if_pos hstar]
      have hud : (u.drop 1).length ≤ u.length := by simp
      show (u.drop 1).length ≤ s.length
      omega
    · rw [if_neg hstar]
      rcases hp : goParsenum 0 false u with ⟨num, b, v⟩
      have hv := goParsenum_rest_le u 0 false
      rw [hp] at hv
      simp at hv
      simp only [hp]
      show v.length ≤ s.length
      omega
  · rw [if_neg h]

/-- The optional second index step only consumes characters. -/
theorem goMaybeIndex_rest_le (good after : Bool) (s : List Char) :
    (goMaybeIndex good after s).2.2.length ≤ s.length := by
  unfold goMaybeIndex
  by_cases ha : after = true
  · rw [if_pos ha]
  · rw [if_neg ha]
    exact goArgNumber_rest_le good s

/-- The verb dispatch only consumes characters. -/
theorem goFinalVerb_rest_le (good : Bool) (s : List Char) :
    (goFinalVerb good s).2.length ≤ s.length := by
  unfold goFinalVerb
  split
  · simp
  · split
    · simp
    · split <;> simp

/-- A whole verb only consumes characters after its `%`. -/
theorem goVerb_rest_le (s : List Char) : (goVerb s).2.length ≤ s.length := by
  unfold goVerb
  rcases h1 : goArgNumber true (s.dropWhile isFlagChar) with ⟨g1, a1, s2⟩
  have l1 : s2.length ≤ s.length := by
    have h := goArgNumber_rest_le true (s.dropWhile isFlagChar)
    rw [h1] at h
    exact le_trans h (dropWhile_length_le isFlagChar s)
  rcases h2 : goWidth g1 a1 s2 with ⟨o1, g2, a2, s3⟩
  have l2 : s3.length ≤ s2.length := by
    have h := goWidth_rest_le g1 a1 s2
    rw [h2] at h
    exact h
  rcases h3 : goPrec g2 a2 s3 with ⟨o2, g3, a3, s4⟩
  have l3 : s4.length ≤ s3.length := by
    have h := goPrec_rest_le g2 a2 s3
    rw [h3] at h
    exact h
  rcases h4 : goMaybeIndex g3 a3 s4 with ⟨g4, a4, s5⟩
  have l4 : s5.length ≤ s4.length := by
    have h := goMaybeIndex_rest_le g3 a3 s4
    rw [h4] at h
    exact h
  rcases h5 : goFinalVerb g4 s5 with ⟨o3, rest⟩
  have l5 : rest.length ≤ s5.length := by
    have h := goFinalVerb_rest_le g4 s5
    rw [h5] at h
    exact h
  simp only [h1, h2, h3, h4, h5]
  omega

/-- The entry fuel `length + 1` of `goPrintfNoArgs` is never what stops
the scan: any fuel beyond the format's length gives the same output,
because every iteration consumes at least the `%` character. -/
theorem goPrintfLoop_fuel_irrel : ∀ (fuel1 fuel2 : Nat) (s : List Char),
    s.length < fuel1 → s.length < fuel2 →
    goPrintfLoop fuel1 s = goPrintfLoop fuel2 s := by
  intro fuel1
  induction fuel1 with
  | zero =>
    intro fuel2 s h1 h2
    exact absurd h1 (Nat.not_lt_zero _)
  | succ f IH =>
    intro fuel2 s h1 h2
    cases fuel2 with
    | zero => exact absurd h2 (Nat.not_lt_zero _)
    | succ g =>
      simp only [goPrintfLoop]
      rcases hd : s.drop ((s.takeWhile (fun c => c != '%')).length) with _ | ⟨c, afterPct⟩
      · simp
      · simp only []
        rcases hv : goVerb afterPct with ⟨out, rest⟩
        have hap : afterPct.length < s.length := by
          have hc := congrArg List.length hd
          simp [List.length_drop] at hc
          omega
        have hr : rest.length ≤ afterPct.length := by
          have h := goVerb_rest_le afterPct
          rw [hv] at h
          exact h
        rw [IH g rest (by omega) (by omega)]

/-- Every character of an intercalation comes from the separator or from
one of the joined strings (auxiliary induction over `intercalate`'s
accumulator loop). -/
theorem mem_data_intercalate_go (sep : String) (c : Char) :
    ∀ (as : List String) (acc : String),
    c ∈ (String.intercalate.go acc sep as).data →
    c ∈ acc.data ∨ c ∈ sep.data ∨ ∃ x ∈ as, c ∈ x.data := by
  intro as
  induction as with
  | nil =>
    intro acc h
    exact Or.inl (by simpa [String.intercalate.go] using h)
  | cons a as IH =>
    intro acc h
    simp only [String.intercalate.go] at h
    rcases IH (acc ++ sep ++ a) h with h1 | h2 | h3
    · rw [string_data_append, string_data_append] at h1
      rcases List.mem_append.mp h1 with h4 | h5
      · rcases List.mem_append.mp h4 with h6 | h7
        · exact Or.inl h6
        · exact Or.inr (Or.inl h7)
      · exact Or.inr (Or.inr ⟨a, by simp, h5⟩)
    · exact Or.inr (Or.inl h2)
    · rcases h3 with ⟨x, hx, hc⟩
      exact Or.inr (Or.inr ⟨x, by simp [hx], hc⟩)

/-- Every character of `strings.Join(l, sep)` comes from the separator
or from one of the joined strings. -/
theorem mem_data_intercalate (sep : String) (l : List String) (c : Char)
    (h : c ∈ (String.intercalate sep l).data) :
    c ∈ sep.data ∨ ∃ x ∈ l, c ∈ x.data := by
  cases l with
  | nil =>
    simp [String.intercalate] at h
  | cons a as =>
    simp only [String.intercalate] at h
    rcases mem_data_intercalate_go sep c as a h with h1 | h2 | h3
    · exact Or.inr ⟨a, by simp, h1⟩
    · exact Or.inl h2
    · rcases h3 with ⟨x, hx, hc⟩
      exact Or.inr ⟨x, by simp [hx], hc⟩

/-! ## Helper lemmas about the poll loop -/

/-- The Go condition `len(hosts) > 0 && len(hosts) == count`, read as a
proposition. -/
theorem breakCond_eq_true_iff (l : List String) (count : Int) :
    breakCond l count = true ↔ (0 < l.length ∧ (l.length : Int) = count) := by
  simp [breakCond]

/-- A non-positive quorum target can never satisfy the break condition. -/
theorem breakCond_false_of_nonpos (l : List String) (count : Int) (hc : count ≤ 0) :
    breakCond l count = false := by
  by_cases hb : breakCond l count = true
  · rcases (breakCond_eq_true_iff l count).mp hb with ⟨h1, h2⟩
    exact absurd hc (by omega)
  · simpa using hb

/-- Once the 5-minute deadline has passed, the loop condition fails at
once: no fetch happens and the hosts list is returned as is. -/
theorem pollFrom_deadline (f : Nat → Option (List EndpointSubset)) (count : Int)
    (ns svc dom : String) (fuel k : Nat) (hosts : List String) (hk : 300 ≤ 10 * k) :
    pollFrom f count ns svc dom fuel k hosts = (hosts, 0) := by
  cases fuel with
  | zero => rfl
  | succ fuel =>
    simp only [pollFrom]
    rw [if_neg (by omega)]

/-- Loop body, failed fetch (line 131-133): one fetch attempt, `continue`
with the hosts list untouched. -/
theorem pollFrom_step_none (f : Nat → Option (List EndpointSubset)) (count : Int)
    (ns svc dom : String) (fuel k : Nat) (hosts : List String)
    (hk : 10 * k < 300) (hf : f k = none) :
    pollFrom f count ns svc dom (fuel + 1) k hosts
      = ((pollFrom f count ns svc dom fuel (k + 1) hosts).1,
         (pollFrom f count ns svc dom fuel (k + 1) hosts).2 + 1) := by
  simp only [pollFrom, if_pos hk, hf]

/-- Loop body, successful fetch that reaches quorum (lines 134-138): the
recomputed list is returned at once. -/
theorem pollFrom_step_break (f : Nat → Option (List EndpointSubset)) (count : Int)
    (ns svc dom : String) (fuel k : Nat) (hosts : List String)
    (subsets : List EndpointSubset) (hk : 10 * k < 300) (hf : f k = some subsets)
    (hb : breakCond (getFqdn (getHostnames subsets) ns svc dom) count = true) :
    pollFrom f count ns svc dom (fuel + 1) k hosts
      = (getFqdn (getHostnames subsets) ns svc dom, 1) := by
  simp only [pollFrom, if_pos hk, hf, if_pos hb]

/-- Loop body, successful fetch short of quorum (lines 134-138): the
hosts list is replaced in full and the loop goes on. -/
theorem pollFrom_step_cont (f : Nat → Option (List EndpointSubset)) (count : Int)
    (ns svc dom : String) (fuel k : Nat) (hosts : List String)
    (subsets : List EndpointSubset) (hk : 10 * k < 300) (hf : f k = some subsets)
    (hb : breakCond (getFqdn (getHostnames subsets) ns svc dom) count = false) :
    pollFrom f count ns svc dom (fuel + 1) k hosts
      = ((pollFrom f count ns svc dom fuel (k + 1) (getFqdn (getHostnames subsets) ns svc dom)).1,
         (pollFrom f count ns svc dom fuel (k + 1) (getFqdn (getHostnames subsets) ns svc dom)).2 + 1) := by
  simp only [pollFrom, if_pos hk, hf]
  rw [if_neg (by simp [hb])]

/-- Each executed iteration consumes one unit of fuel, so the number of
fetches is bounded by the fuel. -/
theorem pollFrom_fetches_le_fuel (f : Nat → Option (List EndpointSubset)) (count : Int)
    (ns svc dom : String) : ∀ (fuel k : Nat) (hosts : List String),
    (pollFrom f count ns svc dom fuel k hosts).2 ≤ fuel := by
  intro fuel
  induction fuel with
  | zero => intro k hosts; simp [pollFrom]
  | succ fuel IH =>
    intro k hosts
    by_cases hk : 10 * k < 300
    · cases hf : f k with
      | none =>
        rw [pollFrom_step_none f count ns svc dom fuel k hosts hk hf]
        simpa using Nat.succ_le_succ (IH (k + 1) hosts)
      | some subsets =>
        by_cases hb : breakCond (getFqdn (getHostnames subsets) ns svc dom) count = true
        · rw [pollFrom_step_break f count ns svc dom fuel k hosts subsets hk hf hb]
          simp
        · rw [pollFrom_step_cont f count ns svc dom fuel k hosts subsets hk hf
            (by simpa using hb)]
          simpa using Nat.succ_le_succ (IH (k + 1) (getFqdn (getHostnames subsets) ns svc dom))
    · rw [pollFrom_deadline f count ns svc dom (fuel + 1) k hosts (by omega)]
      simp

/-- The fuel parameter is invisible as long as it covers the ticks the
deadline admits: the deadline check, not the fuel, stops the loop. -/
theorem pollFrom_fuel_irrel (f : Nat → Option (List EndpointSubset)) (count : Int)
    (ns svc dom : String) : ∀ (fuel1 fuel2 k : Nat) (hosts : List String),
    30 ≤ k + fuel1 → 30 ≤ k + fuel2 →
    pollFrom f count ns svc dom fuel1 k hosts = pollFrom f count ns svc dom fuel2 k hosts := by
  intro fuel1
  induction fuel1 with
  | zero =>
    intro fuel2 k hosts h1 h2
    rw [pollFrom_deadline f count ns svc dom 0 k hosts (by omega),
      pollFrom_deadline f count ns svc dom fuel2 k hosts (by omega)]
  | succ fuel1 IH =>
    intro fuel2 k hosts h1 h2
    by_cases hk : 10 * k < 300
    · cases fuel2 with
      | zero => exact absurd h2 (by omega)
      | succ fuel2 =>
        cases hf : f k with
        | none =>
          rw [pollFrom_step_none f count ns svc dom fuel1 k hosts hk hf,
            pollFrom_step_none f count ns svc dom fuel2 k hosts hk hf,
            IH fuel2 (k + 1) hosts (by omega) (by omega)]
        | some subsets =>
          by_cases hb : breakCond (getFqdn (getHostnames subsets) ns svc dom) count = true
          · rw [pollFrom_step_break f count ns svc dom fuel1 k hosts subsets hk hf hb,
              pollFrom_step_break f count ns svc dom fuel2 k hosts subsets hk hf hb]
          · rw [pollFrom_step_cont f count ns svc dom fuel1 k hosts subsets hk hf
                (by simpa using hb),
              pollFrom_step_cont f count ns svc dom fuel2 k hosts subsets hk hf
                (by simpa using hb),
              IH fuel2 (k + 1) (getFqdn (getHostnames subsets) ns svc dom) (by omega) (by omega)]
    · rw [pollFrom_deadline f count ns svc dom (fuel1 + 1) k hosts (by omega),
        pollFrom_deadline f count ns svc dom fuel2 k hosts (by omega)]

/-- With a non-positive target no iteration can break, so from tick `k`
the loop performs exactly one fetch per remaining tick before the
deadline. -/
theorem pollFrom_full_of_nonpos (f : Nat → Option (List EndpointSubset)) (count : Int)
    (ns svc dom : String) (hc : count ≤ 0) : ∀ (fuel k : Nat) (hosts : List String),
    30 ≤ k + fuel → (pollFrom f count ns svc dom fuel k hosts).2 = 30 - k := by
  intro fuel
  induction fuel with
  | zero =>
    intro k hosts h
    have hk : 30 - k = 0 := by omega
    simp [pollFrom, hk]
  | succ fuel IH =>
    intro k hosts h
    by_cases hk : 10 * k < 300
    · cases hf : f k with
      | none =>
        rw [pollFrom_step_none f count ns svc dom fuel k hosts hk hf]
        have := IH (k + 1) hosts (by omega)
        simp only [this]
        omega
      | some subsets =>
        rw [pollFrom_step_cont f count ns svc dom fuel k hosts subsets hk hf
          (breakCond_false_of_nonpos (getFqdn (getHostnames subsets) ns svc dom) count hc)]
        have := IH (k + 1) (getFqdn (getHostnames subsets) ns svc dom) (by omega)
        simp only [this]
        omega
    · rw [pollFrom_deadline f count ns svc dom (fuel + 1) k hosts (by omega)]
      simp only
      omega

/-! ## The claims -/

/-- C1: the poll loop's success exit is strict equality: the break
condition of line 136 holds exactly when the freshly computed FQDN list
is non-empty and its length equals the quorum target (not greater or
equal); and in an iteration before the deadline whose fetch succeeds
with a quorum-satisfying list, the loop returns that very list having
performed exactly this one fetch, so no further fetch happens and the
list is not mutated after the break. -/
theorem poll_break_strict_equality :
    (∀ (l : List String) (cnt : Int),
      breakCond l cnt = true ↔ (0 < l.length ∧ (l.length : Int) = cnt)) ∧
    (∀ (f : Nat → Option (List EndpointSubset)) (count : Int) (ns svc dom : String)
      (fuel k : Nat) (hosts : List String) (subsets : List EndpointSubset),
      10 * k < 300 → f k = some subsets →
      breakCond (getFqdn (getHostnames subsets) ns svc dom) count = true →
      pollFrom f count ns svc dom (fuel + 1) k hosts
        = (getFqdn (getHostnames subsets) ns svc dom, 1)) := by
  constructor
  · intro l cnt
    exact breakCond_eq_true_iff l cnt
  · intro f count ns svc dom fuel k hosts subsets hk hf hb
    exact pollFrom_step_break f count ns svc dom fuel k hosts subsets hk hf hb

/-- Witness for C1: a single member named `zk-0` with quorum target 1
breaks on the very first tick. -/
theorem poll_break_strict_equality_witness :
    pollFrom (fun _ => some [EndpointSubset.mk [EndpointAddress.mk "zk-0" "10.0.0.1"]])
        1 "ns" "svc" "dom" 30 0 []
      = (getFqdn (getHostnames [EndpointSubset.mk [EndpointAddress.mk "zk-0" "10.0.0.1"]])
          "ns" "svc" "dom", 1) :=
  poll_break_strict_equality.2
    (fun _ => some [EndpointSubset.mk [EndpointAddress.mk "zk-0" "10.0.0.1"]])
    1 "ns" "svc" "dom" 29 0 [] [EndpointSubset.mk [EndpointAddress.mk "zk-0" "10.0.0.1"]]
    (by decide) rfl (by decide)

/-- C2: for every sequence of fetch outcomes the poll loop performs at
most 30 ten-second ticks, the number that fit in the 5-minute deadline;
and the deadline condition is re-checked every iteration: as soon as it
has expired the loop stops with no further fetch, whatever the quorum
state. -/
theorem poll_deadline_bound :
    (∀ (f : Nat → Option (List EndpointSubset)) (count : Int) (ns svc dom : String),
      (poll f count ns svc dom).2 ≤ 30) ∧
    (∀ (f : Nat → Option (List EndpointSubset)) (count : Int) (ns svc dom : String)
      (fuel k : Nat) (hosts : List String),
      300 ≤ 10 * k → pollFrom f count ns svc dom fuel k hosts = (hosts, 0)) := by
  constructor
  · intro f count ns svc dom
    exact pollFrom_fetches_le_fuel f count ns svc dom 30 0 []
  · intro f count ns svc dom fuel k hosts hk
    exact pollFrom_deadline f count ns svc dom fuel k hosts hk

/-- Witness for C2: at tick 30 the deadline has expired and the loop
returns at once. -/
theorem poll_deadline_bound_witness :
    pollFrom (fun _ => none) 5 "a" "b" "c" 7 30 ["x"] = (["x"], 0) :=
  poll_deadline_bound.2 (fun _ => none) 5 "a" "b" "c" 7 30 ["x"] (by decide)

/-- C3: on every hostname that does not start with `<word>-<digit>` the
regex of `getNodeIndex` has no capture groups and the unchecked index
into the empty submatch result crashes the program, modelled as `none`. -/
theorem getNodeIndex_crash_on_mismatch (s : String)
    (hpat : startsWithWordDashDigit s.data = false) : getNodeIndex s = none := by
  unfold getNodeIndex
  rw [reDigitCapture_none_of_not_start s.data hpat]
  rfl

/-- Witness for C3: the spec's own example of a hard failure. -/
theorem getNodeIndex_crash_on_mismatch_witness : getNodeIndex "malformed" = none :=
  getNodeIndex_crash_on_mismatch "malformed" (by decide)

/-- C4: on every hostname of the exact form `<word>-<d>` with `d` a
single digit, `getNodeIndex` returns the decimal representation of
`d + 1`. -/
theorem getNodeIndex_word_dash_digit (w : List Char) (c : Char)
    (hw : ∀ x ∈ w, goWordChar x = true) (hc : c.isDigit = true) :
    getNodeIndex (String.mk (w ++ ['-', c]))
      = some (toString (c.toNat - '0'.toNat + 1)) := by
  unfold getNodeIndex
  show (reDigitCapture (w ++ '-' :: c :: [])).map _ = _
  rw [reDigitCapture_word_run w c [] hw, if_pos hc]
  rfl

/-- Witness for C4: `zk-3` maps to `4`. -/
theorem getNodeIndex_word_dash_digit_witness : getNodeIndex "zk-3" = some "4" :=
  getNodeIndex_word_dash_digit ['z', 'k'] '3' (by decide) (by decide)

/-- C5 counterexample: the claim says `getNodeIndex "zk-9" = "2"`, but
the code increments the captured digit, giving `"10"`. -/
theorem getNodeIndex_zk9_counterexample : getNodeIndex "zk-9" ≠ some "2" := by
  decide

/-- C5 amended: `getNodeIndex "zk-0" = "1"` holds as claimed, and on
`"zk-9"` the result is `"10"` (the captured digit 9 plus one), not
`"2"`. -/
theorem getNodeIndex_spec_examples_amended :
    getNodeIndex "zk-0" = some "1" ∧ getNodeIndex "zk-9" = some "10" := by
  decide

/-- C6 counterexample: the default branch hands the joined FQDNs to
`fmt.Printf` as its format string, so a `%` inside an FQDN is parsed as
a verb: on `["100%"]` the program prints `100%!(NOVERB)`, not the join
`100%`. -/
theorem formatOutput_default_join_counterexample :
    formatOutput ["100%"] "myservice" = some "100%!(NOVERB)" ∧
    formatOutput ["100%"] "myservice" ≠ some (String.intercalate ", " ["100%"]) := by
  decide

/-- C6 amended: with any format selector other than `"zookeeper"` and
`"elasticsearch"`, and an FQDN list none of whose elements contains the
character `%`, `formatOutput` writes exactly the comma-space-joined
FQDNs, and nothing else — in particular no trailing newline is added.
(The join is the `Printf` format string, and a `%`-free format string is
printed verbatim.) -/
theorem formatOutput_default_join_amended (result : List String) (format : String)
    (h1 : format ≠ "zookeeper") (h2 : format ≠ "elasticsearch")
    (h3 : ∀ x ∈ result, ∀ c ∈ x.data, c ≠ '%') :
    formatOutput result format = some (String.intercalate ", " result) := by
  have hj : ∀ c ∈ (String.intercalate ", " result).data, c ≠ '%' := by
    intro c hc
    rcases mem_data_intercalate ", " result c hc with hs | ⟨x, hx, hcx⟩
    · intro hceq
      subst hceq
      exact absurd hs (by decide)
    · exact h3 x hx c hcx
  simp [formatOutput, h1, h2, goPrintfNoArgs_no_pct _ hj]

/-- Witness for C6 amended: the spec's example, selector neither of the
two special names, `%`-free FQDNs, output exactly the join with no
newline. -/
theorem formatOutput_default_join_amended_witness :
    formatOutput ["a", "b"] "myservice" = some "a, b" := by
  rw [formatOutput_default_join_amended ["a", "b"] "myservice" (by decide) (by decide)
    (by decide)]
  rfl

/-- C7: `getFqdn` is length- and order-preserving and its `i`-th element
is `H[i] + "." + serviceName + "." + namespaceName + "." + domainName`;
the statement quantifies over all component strings, the empty ones
included, so empty components are concatenated without any error. -/
theorem getFqdn_length_and_elements (H : List String) (ns svc dom : String) :
    (getFqdn H ns svc dom).length = H.length ∧
    ∀ i : Nat, (getFqdn H ns svc dom)[i]?
      = (H[i]?).map (fun h => h ++ "." ++ svc ++ "." ++ ns ++ "." ++ dom) := by
  constructor
  · simp [getFqdn_eq_map]
  · intro i
    simp [getFqdn_eq_map]

/-- C8: a tick whose fetch fails keeps the previous hosts list unchanged
(not reset, not recomputed) and proceeds to the next tick; a tick whose
fetch succeeds short of quorum proceeds with the hosts list replaced in
full by the recomputed FQDNs, regardless of the previous list. -/
theorem poll_failure_retains_hosts :
    ∀ (f : Nat → Option (List EndpointSubset)) (count : Int) (ns svc dom : String)
      (fuel k : Nat) (hosts : List String),
      10 * k < 300 →
      (f k = none →
        pollFrom f count ns svc dom (fuel + 1) k hosts
          = ((pollFrom f count ns svc dom fuel (k + 1) hosts).1,
             (pollFrom f count ns svc dom fuel (k + 1) hosts).2 + 1)) ∧
      (∀ subsets : List EndpointSubset, f k = some subsets →
        breakCond (getFqdn (getHostnames subsets) ns svc dom) count = false →
        pollFrom f count ns svc dom (fuel + 1) k hosts
          = ((pollFrom f count ns svc dom fuel (k + 1)
                (getFqdn (getHostnames subsets) ns svc dom)).1,
             (pollFrom f count ns svc dom fuel (k + 1)
                (getFqdn (getHostnames subsets) ns svc dom)).2 + 1)) := by
  intro f count ns svc dom fuel k hosts hk
  constructor
  · intro hf
    exact pollFrom_step_none f count ns svc dom fuel k hosts hk hf
  · intro subsets hf hb
    exact pollFrom_step_cont f count ns svc dom fuel k hosts subsets hk hf hb

/-- Witness for C8: a failing first fetch carries the previous list into
the next tick untouched. -/
theorem poll_failure_retains_hosts_witness :
    pollFrom (fun _ => none) 1 "a" "b" "c" 1 0 ["prev"]
      = ((pollFrom (fun _ => none) 1 "a" "b" "c" 0 1 ["prev"]).1,
         (pollFrom (fun _ => none) 1 "a" "b" "c" 0 1 ["prev"]).2 + 1) :=
  (poll_failure_retains_hosts (fun _ => none) 1 "a" "b" "c" 0 0 ["prev"] (by decide)).1 rfl

/-- C9: the zookeeper branch applies `getNodeIndex` to each entire FQDN;
for any extracted hostname (the extractor filters nothing, empty
hostnames included) that does not start with `<word>-<digit>`, the FQDN
built from it fails the regex too — the appended `.`-suffix cannot
create a match — and the program crashes instead of producing output. -/
theorem formatOutput_zookeeper_crash
    (subsets : List EndpointSubset) (ns svc dom : String) (h : String)
    (hmem : h ∈ getHostnames subsets)
    (hpat : startsWithWordDashDigit h.data = false) :
    formatOutput (getFqdn (getHostnames subsets) ns svc dom) "zookeeper" = none := by
  have hfq : (h ++ "." ++ svc ++ "." ++ ns ++ "." ++ dom)
      ∈ getFqdn (getHostnames subsets) ns svc dom := by
    rw [getFqdn_eq_map]
    exact List.mem_map_of_mem _ hmem
  have hdot : ("." : String).data = ['.'] := rfl
  have hdata : (h ++ "." ++ svc ++ "." ++ ns ++ "." ++ dom).data
      = h.data ++ '.' :: (svc.data ++ '.' :: (ns.data ++ '.' :: dom.data)) := by
    simp [string_data_append, hdot]
  have hni : getNodeIndex (h ++ "." ++ svc ++ "." ++ ns ++ "." ++ dom) = none := by
    unfold getNodeIndex
    rw [hdata, reDigitCapture_append_dot h.data _ hpat]
    rfl
  simp [formatOutput,
    zkLines_none_of_mem (getFqdn (getHostnames subsets) ns svc dom) _ hfq hni]

/-- Witness for C9: one member with an empty hostname (a headless or
unnamed endpoint) makes the zookeeper formatter crash. -/
theorem formatOutput_zookeeper_crash_witness :
    formatOutput
      (getFqdn (getHostnames [EndpointSubset.mk [EndpointAddress.mk "" "10.0.0.1"]])
        "ns" "svc" "dom") "zookeeper" = none :=
  formatOutput_zookeeper_crash [EndpointSubset.mk [EndpointAddress.mk "" "10.0.0.1"]]
    "ns" "svc" "dom" "" (by decide) (by decide)

/-- C10: an unset or unparsable `MINIMUM_MASTER_NODES` parses to 0, and
with any quorum target that is zero or negative the break condition is
never satisfied, so the loop never exits early: it performs all 30 ticks
of the 5-minute window, for every sequence of fetch outcomes. -/
theorem poll_nonpositive_target_runs_full :
    (goAtoi "" = 0 ∧ goAtoi "notanumber" = 0) ∧
    ∀ (f : Nat → Option (List EndpointSubset)) (count : Int) (ns svc dom : String),
      count ≤ 0 → (poll f count ns svc dom).2 = 30 := by
  refine ⟨⟨by decide, by decide⟩, ?_⟩
  intro f count ns svc dom hc
  have := pollFrom_full_of_nonpos f count ns svc dom hc 30 0 [] (by omega)
  simpa [poll] using this

/-- Witness for C10: with the target parsed from the unset environment
variable (empty string, hence 0), every fetch failing, the loop still
performs the full 30 fetches. -/
theorem poll_nonpositive_target_runs_full_witness :
    (poll (fun _ => none) (goAtoi "") "a" "b" "c").2 = 30 :=
  poll_nonpositive_target_runs_full.2 (fun _ => none) (goAtoi "") "a" "b" "c" (by decide)
